import Mathlib

/-!
# Verification of the dice-notation interpreter

Shallow embedding of `src/packages/shared/src/dice/parser.ts` and
`src/packages/shared/src/dice/roller.ts`: the dice-expression parser
(`parseDice`, its regex match, validation order and error messages) and the
roll executor (`secureRandomInt` rejection sampling, `rollDice`, `roll` with
keep/drop selection).  Strings are embedded as `List Char`, the JS entropy
source (`crypto.getRandomValues` on a `Uint32Array`) as a list of 32-bit
words consumed left to right, and throwing as `Except`/`Option`.
JavaScript's `Array.prototype.sort` is stable (ES2019), so the comparator
sorts in `roll` are embedded as stable insertion sorts.
-/

namespace Duragon

/-- Keep mode for dice expressions (`'highest' | 'lowest'` in `parser.ts`). -/
inductive KeepMode where
  | highest
  | lowest
deriving DecidableEq, Repr

/-- Drop mode for dice expressions (`DropMode` re-exported by `dice/index.ts`). -/
inductive DropMode where
  | highest
  | lowest
deriving DecidableEq, Repr

/-- The `ParsedDice` interface: the descriptor consumed by `roller.ts`
(`count`, `sides`, `modifier`, optional `keep`/`keepCount` and
`drop`/`dropCount`; absent optional fields are `none`). -/
structure ParsedDice where
  count : Nat
  sides : Nat
  modifier : Int
  keep : Option KeepMode := none
  keepCount : Option Nat := none
  drop : Option DropMode := none
  dropCount : Option Nat := none
deriving DecidableEq, Repr

/-- `DiceParseError`: carries the human-readable message and the original
expression (`this.expression = expression`). -/
structure DiceParseError where
  message : String
  expression : String
deriving DecidableEq, Repr

/-- The whitespace class trimmed by JavaScript's `String.prototype.trim`
(the characters relevant to dice expressions). -/
def isJsSpace (c : Char) : Bool :=
  c = ' ' || c = '\t' || c = '\n' || c = '\r' || c = '\x0b' || c = '\x0c'

/-- `expression.trim()`: remove leading and trailing whitespace. -/
def trimList (cs : List Char) : List Char :=
  ((cs.dropWhile isJsSpace).reverse.dropWhile isJsSpace).reverse

/-- `parseInt(s, 10)` on a non-empty all-digit string. -/
def digitsToNat (cs : List Char) : Nat :=
  cs.foldl (fun acc c => 10 * acc + (c.toNat - 48)) 0

/-- Selector tag captured by group 3 of `DICE_REGEX` (`kh` or `kl`,
case-insensitive). -/
inductive KeepTag where
  | kh
  | kl
deriving DecidableEq, Repr

/-- Successful match of `DICE_REGEX = /^(\d*)d(\d+)(?:(kh|kl)(\d+))?([+-]\d+)?$/i`:
the four capture groups (count digits, sides digits, optional selector tag
with its digits, optional modifier sign with its digits). -/
structure KhKlMatch where
  countStr : List Char
  sidesStr : List Char
  keepPart : Option (KeepTag × List Char)
  modPart : Option (Bool × List Char)
deriving DecidableEq, Repr

/-- Match the tail regex `([+-]\d+)?$`: either end of input (no modifier) or a
sign followed by at least one digit reaching the end. -/
def matchMod : List Char → Option (Option (Bool × List Char))
  | [] => some none
  | c :: rest =>
    if c = '+' || c = '-' then
      let ds := rest.takeWhile Char.isDigit
      let rest2 := rest.dropWhile Char.isDigit
      if ds.isEmpty then none
      else if rest2.isEmpty then some (some (c = '+', ds)) else none
    else none

/-- Match the optional selector group `(?:(kh|kl)(\d+))?` (case-insensitive).
Because the selector starts with a letter and everything after the sides
digits must be selector, modifier, or end of input, the regex is
deterministic: if a `k` is present it must complete `kh|kl` plus digits or
the whole match fails. -/
def matchKhKl : List Char → Option (Option (KeepTag × List Char) × List Char)
  | [] => some (none, [])
  | c :: rest =>
    if c = 'k' || c = 'K' then
      match rest with
      | [] => none
      | c2 :: rest2 =>
        let tag : Option KeepTag :=
          if c2 = 'h' || c2 = 'H' then some KeepTag.kh
          else if c2 = 'l' || c2 = 'L' then some KeepTag.kl
          else none
        match tag with
        | none => none
        | some t =>
          let ds := rest2.takeWhile Char.isDigit
          let rest3 := rest2.dropWhile Char.isDigit
          if ds.isEmpty then none else some (some (t, ds), rest3)
    else some (none, c :: rest)

/-- `trimmed.match(DICE_REGEX)` for
`DICE_REGEX = /^(\d*)d(\d+)(?:(kh|kl)(\d+))?([+-]\d+)?$/i`, implemented as the
equivalent deterministic anchored parse (the character classes of consecutive
groups are disjoint, so no backtracking can change the outcome). -/
def matchDice (cs : List Char) : Option KhKlMatch :=
  let countStr := cs.takeWhile Char.isDigit
  match cs.dropWhile Char.isDigit with
  | [] => none
  | c :: rest =>
    if c = 'd' || c = 'D' then
      let sidesStr := rest.takeWhile Char.isDigit
      if sidesStr.isEmpty then none
      else
        match matchKhKl (rest.dropWhile Char.isDigit) with
        | none => none
        | some (keepPart, rest2) =>
          match matchMod rest2 with
          | none => none
          | some modPart => some ⟨countStr, sidesStr, keepPart, modPart⟩
    else none

/-- `const count = countStr === '' ? 1 : parseInt(countStr, 10)`. -/
def khCount (m : KhKlMatch) : Nat :=
  if m.countStr.isEmpty then 1 else digitsToNat m.countStr

/-- `const sides = parseInt(sidesStr, 10)`. -/
def khSides (m : KhKlMatch) : Nat := digitsToNat m.sidesStr

/-- `const modifier = modifierStr === '' ? 0 : parseInt(modifierStr, 10)`. -/
def khModifier (m : KhKlMatch) : Int :=
  match m.modPart with
  | none => 0
  | some (pos, ds) => if pos then (digitsToNat ds : Int) else -(digitsToNat ds : Int)

/-- The `keep`/`keepCount` pair extracted from the selector capture
(`keep = keepModeStr.toLowerCase() === 'kh' ? 'highest' : 'lowest'`,
`keepCount = parseInt(keepCountStr, 10)`). -/
def khKeepInfo (m : KhKlMatch) : Option (KeepMode × Nat) :=
  match m.keepPart with
  | none => none
  | some (KeepTag.kh, ds) => some (KeepMode.highest, digitsToNat ds)
  | some (KeepTag.kl, ds) => some (KeepMode.lowest, digitsToNat ds)

/-- The descriptor a successful `parseDice` builds from a match: counts and
modifier with their defaults, and the keep fields exactly when a selector was
captured. -/
def khResult (m : KhKlMatch) : ParsedDice :=
  { count := khCount m, sides := khSides m, modifier := khModifier m,
    keep := (khKeepInfo m).map Prod.fst, keepCount := (khKeepInfo m).map Prod.snd,
    drop := none, dropCount := none }

/-- The validation tail of `parseDice` (lines 316-392 of `parser.ts`): extract
the captured groups, apply defaults, and run the ordered bound checks with
their exact error messages. -/
def validateMatch (expression : String) (m : KhKlMatch) : Except DiceParseError ParsedDice :=
  let count := khCount m
  let sides := khSides m
  let modifier : Int := khModifier m
  let keepInfo : Option (KeepMode × Nat) := khKeepInfo m
  if count < 1 then
    .error ⟨"Invalid dice count: " ++ toString count ++ ". Must be at least 1", expression⟩
  else if count > 100 then
    .error ⟨"Invalid dice count: " ++ toString count ++ ". Maximum is 100 dice", expression⟩
  else if sides < 1 then
    .error ⟨"Invalid number of sides: " ++ toString sides ++ ". Must be at least 1", expression⟩
  else if sides > 1000 then
    .error ⟨"Invalid number of sides: " ++ toString sides ++ ". Maximum is 1000", expression⟩
  else
    match keepInfo with
    | none => .ok { count := count, sides := sides, modifier := modifier }
    | some (mode, kc) =>
      if kc < 1 then
        .error ⟨"Invalid keep count: " ++ toString kc ++ ". Must be at least 1", expression⟩
      else if kc > count then
        .error ⟨"Invalid keep count: " ++ toString kc ++
          ". Cannot keep more dice than rolled (" ++ toString count ++ ")", expression⟩
      else
        .ok { count := count, sides := sides, modifier := modifier,
              keep := some mode, keepCount := some kc }

/-- `parseDice` from `parser.ts` (lines 295-393): falsy-input guard, trim,
empty check, regex match, then validation. -/
def parseDice (expression : String) : Except DiceParseError ParsedDice :=
  if expression = "" then
    .error ⟨"Expression must be a non-empty string", expression⟩
  else
    let trimmed := trimList expression.data
    if trimmed.length = 0 then
      .error ⟨"Expression cannot be empty", expression⟩
    else
      match matchDice trimmed with
      | none =>
        .error ⟨"Invalid dice expression: \"" ++ String.mk trimmed ++
          "\". Expected format: NdS, NdS+M, or NdSkhK (e.g., 1d20, 2d6+3, 2d20kh1)", expression⟩
      | some m => validateMatch expression m

/-- Selector tag of the full grammar `selector := ("kh"|"kl"|"dh"|"dl") digits`. -/
inductive SelTag where
  | kh
  | kl
  | dh
  | dl
deriving DecidableEq, Repr

/-- Successful match of the full dice regex
`/^(\d*)d(\d+)(?:(kh|kl|dh|dl)(\d+))?([+-]\d+)?$/i`. -/
structure FullMatch where
  countStr : List Char
  sidesStr : List Char
  selPart : Option (SelTag × List Char)
  modPart : Option (Bool × List Char)
deriving DecidableEq, Repr

/-- Match the optional selector group `(?:(kh|kl|dh|dl)(\d+))?` of the full
grammar (case-insensitive), deterministic for the same reason as `matchKhKl`. -/
def matchSel : List Char → Option (Option (SelTag × List Char) × List Char)
  | [] => some (none, [])
  | c :: rest =>
    if c = 'k' || c = 'K' || c = 'd' || c = 'D' then
      match rest with
      | [] => none
      | c2 :: rest2 =>
        let tag : Option SelTag :=
          if c = 'k' || c = 'K' then
            if c2 = 'h' || c2 = 'H' then some SelTag.kh
            else if c2 = 'l' || c2 = 'L' then some SelTag.kl
            else none
          else
            if c2 = 'h' || c2 = 'H' then some SelTag.dh
            else if c2 = 'l' || c2 = 'L' then some SelTag.dl
            else none
        match tag with
        | none => none
        | some t =>
          let ds := rest2.takeWhile Char.isDigit
          let rest3 := rest2.dropWhile Char.isDigit
          if ds.isEmpty then none else some (some (t, ds), rest3)
    else some (none, c :: rest)

/-- Anchored match of the full dice grammar
`expr := count? "d" sides selector? modifier?` with
`selector := ("kh"|"kl"|"dh"|"dl") digits`. -/
def matchDiceFull (cs : List Char) : Option FullMatch :=
  let countStr := cs.takeWhile Char.isDigit
  match cs.dropWhile Char.isDigit with
  | [] => none
  | c :: rest =>
    if c = 'd' || c = 'D' then
      let sidesStr := rest.takeWhile Char.isDigit
      if sidesStr.isEmpty then none
      else
        match matchSel (rest.dropWhile Char.isDigit) with
        | none => none
        | some (selPart, rest2) =>
          match matchMod rest2 with
          | none => none
          | some modPart => some ⟨countStr, sidesStr, selPart, modPart⟩
    else none

/-- Modelled from the spec: the validation tail of the repository's drop-aware
parser, which is not present under `src/` (the roller reads `drop`/`dropCount`
and `dice/index.ts` re-exports `DropMode`, but the parser version under `src/`
handles only `kh`/`kl`).  Follows the spec's validation order: count bounds,
sides bounds, then for a Keep selector reject n < 1 and n > count ("cannot
keep more dice than rolled"), and for a Drop selector reject n < 1 and
n ≥ count ("cannot drop all or more dice than rolled").  Messages mirror the
style of the kh/kl parser under `src/`.
Count value extracted from a full-grammar match (omitted count defaults to 1). -/
def fullCount (m : FullMatch) : Nat :=
  if m.countStr.isEmpty then 1 else digitsToNat m.countStr

/-- Sides value extracted from a full-grammar match. -/
def fullSides (m : FullMatch) : Nat := digitsToNat m.sidesStr

/-- Modifier value extracted from a full-grammar match. -/
def fullModifier (m : FullMatch) : Int :=
  match m.modPart with
  | none => 0
  | some (pos, ds) => if pos then (digitsToNat ds : Int) else -(digitsToNat ds : Int)

/-- Keep selection extracted from a full-grammar match. -/
def fullKeepInfo (m : FullMatch) : Option (KeepMode × Nat) :=
  match m.selPart with
  | some (SelTag.kh, ds) => some (KeepMode.highest, digitsToNat ds)
  | some (SelTag.kl, ds) => some (KeepMode.lowest, digitsToNat ds)
  | _ => none

/-- Drop selection extracted from a full-grammar match. -/
def fullDropInfo (m : FullMatch) : Option (DropMode × Nat) :=
  match m.selPart with
  | some (SelTag.dh, ds) => some (DropMode.highest, digitsToNat ds)
  | some (SelTag.dl, ds) => some (DropMode.lowest, digitsToNat ds)
  | _ => none

/-- The Drop mode a selector tag denotes (`none` for keep tags). -/
def dropModeOf : SelTag → Option DropMode
  | SelTag.dh => some DropMode.highest
  | SelTag.dl => some DropMode.lowest
  | _ => none

/-- Modelled from the spec (continued): ordered validation of a full-grammar
match; see `parseDiceFull`. -/
def validateMatchFull (expression : String) (m : FullMatch) : Except DiceParseError ParsedDice :=
  let count := fullCount m
  let sides := fullSides m
  let modifier : Int := fullModifier m
  let keepInfo : Option (KeepMode × Nat) := fullKeepInfo m
  let dropInfo : Option (DropMode × Nat) := fullDropInfo m
  if count < 1 then
    .error ⟨"Invalid dice count: " ++ toString count ++ ". Must be at least 1", expression⟩
  else if count > 100 then
    .error ⟨"Invalid dice count: " ++ toString count ++ ". Maximum is 100 dice", expression⟩
  else if sides < 1 then
    .error ⟨"Invalid number of sides: " ++ toString sides ++ ". Must be at least 1", expression⟩
  else if sides > 1000 then
    .error ⟨"Invalid number of sides: " ++ toString sides ++ ". Maximum is 1000", expression⟩
  else
    match keepInfo with
    | some (mode, kc) =>
      if kc < 1 then
        .error ⟨"Invalid keep count: " ++ toString kc ++ ". Must be at least 1", expression⟩
      else if kc > count then
        .error ⟨"Invalid keep count: " ++ toString kc ++
          ". Cannot keep more dice than rolled (" ++ toString count ++ ")", expression⟩
      else
        .ok { count := count, sides := sides, modifier := modifier,
              keep := some mode, keepCount := some kc }
    | none =>
      match dropInfo with
      | some (mode, dc) =>
        if dc < 1 then
          .error ⟨"Invalid drop count: " ++ toString dc ++ ". Must be at least 1", expression⟩
        else if dc ≥ count then
          .error ⟨"Invalid drop count: " ++ toString dc ++
            ". Cannot drop all or more dice than rolled (" ++ toString count ++ ")", expression⟩
        else
          .ok { count := count, sides := sides, modifier := modifier,
                drop := some mode, dropCount := some dc }
      | none => .ok { count := count, sides := sides, modifier := modifier }

/-- Modelled from the spec: the repository's drop-aware `parseDice` (grammar
`expr := count? "d" sides selector? modifier?` with
`selector := ("kh"|"kl"|"dh"|"dl") digits`), missing from `src/`.  The guard,
trim, and empty-expression steps follow the kh/kl parser under `src/`. -/
def parseDiceFull (expression : String) : Except DiceParseError ParsedDice :=
  if expression = "" then
    .error ⟨"Expression must be a non-empty string", expression⟩
  else
    let trimmed := trimList expression.data
    if trimmed.length = 0 then
      .error ⟨"Expression cannot be empty", expression⟩
    else
      match matchDiceFull trimmed with
      | none =>
        .error ⟨"Invalid dice expression: \"" ++ String.mk trimmed ++
          "\". Expected format: NdS, NdS+M, or NdSkhK (e.g., 1d20, 2d6+3, 2d20kh1)", expression⟩
      | some m => validateMatchFull expression m

/-!
## Roll executor (`roller.ts`)
-/

/-- `0xFFFFFFFF`, the largest `Uint32` value. -/
def maxUint32 : Nat := 4294967295

/-- `limit = maxUint32 - (maxUint32 % max)`: the exclusive upper bound of the
accepted region of the rejection sampler in `secureRandomInt`. -/
def acceptLimit (max : Nat) : Nat := maxUint32 - maxUint32 % max

/-- The `do { crypto.getRandomValues(array); } while (randomValue >= limit)`
loop of `secureRandomInt`: consume 32-bit words until one falls below the
accepted limit, then reduce it into `[1, max]`; `none` if the (finite prefix
of the) entropy stream is exhausted. -/
def secureRandomLoop (max : Nat) : List Nat → Option (Nat × List Nat)
  | [] => none
  | w :: rest =>
    if acceptLimit max ≤ w then secureRandomLoop max rest
    else some (w % max + 1, rest)

/-- `secureRandomInt(max)` from `roller.ts` (lines 40-65): throws for
`max < 1` (embedded as `none`), returns 1 immediately for `max == 1` without
drawing randomness, and otherwise rejection-samples a 32-bit word. -/
def secureRandomInt (max : Nat) (entropy : List Nat) : Option (Nat × List Nat) :=
  if max < 1 then none
  else if max = 1 then some (1, entropy)
  else secureRandomLoop max entropy

/-- `rollDice(count, sides)`: draw `count` dice in order, threading the
entropy stream. -/
def rollDice : Nat → Nat → List Nat → Option (List Nat × List Nat)
  | 0, _, entropy => some ([], entropy)
  | n + 1, sides, entropy =>
    match secureRandomInt sides entropy with
    | none => none
    | some (v, entropy1) =>
      match rollDice n sides entropy1 with
      | none => none
      | some (vs, entropy2) => some (v :: vs, entropy2)

/-- `DieResult`: one die's value and whether it was kept. -/
structure DieResult where
  value : Nat
  kept : Bool
deriving DecidableEq, Repr

/-- `RollResult`: the itemized result of `roll`. -/
structure RollResult where
  dice : ParsedDice
  rolls : List DieResult
  subtotal : Nat
  modifier : Int
  total : Int
deriving DecidableEq, Repr

/-- `rawRolls.map((value, index) => ({ value, index }))`: the (value, index)
pairs fed to the selection sort. -/
def indexedBy (rawRolls : List Nat) : List (Nat × Nat) :=
  rawRolls.enum.map (fun p => (p.2, p.1))

/-- The comparator `(a, b) => b.value - a.value` (sort descending by value) as
the relation "a may come before b"; JavaScript's stable sort with this
comparator is the stable insertion sort by this relation. -/
def descBy (a b : Nat × Nat) : Prop := b.1 ≤ a.1

/-- The comparator `(a, b) => a.value - b.value` (sort ascending by value). -/
def ascBy (a b : Nat × Nat) : Prop := a.1 ≤ b.1

instance : DecidableRel descBy := fun a b => inferInstanceAs (Decidable (b.1 ≤ a.1))

instance : DecidableRel ascBy := fun a b => inferInstanceAs (Decidable (a.1 ≤ b.1))

instance : IsTotal (Nat × Nat) descBy := ⟨fun a b => Nat.le_total b.1 a.1⟩

instance : IsTotal (Nat × Nat) ascBy := ⟨fun a b => Nat.le_total a.1 b.1⟩

instance : IsTrans (Nat × Nat) descBy := ⟨fun _ _ _ h1 h2 => Nat.le_trans h2 h1⟩

instance : IsTrans (Nat × Nat) ascBy := ⟨fun _ _ _ h1 h2 => Nat.le_trans h1 h2⟩

/-- Strict descending order on values, used to compare the two sort orders of
the selection step on tie-free inputs. -/
def sdescBy (a b : Nat × Nat) : Prop := b.1 < a.1

instance : IsAntisymm (Nat × Nat) sdescBy :=
  ⟨fun _ _ h1 h2 => absurd (Nat.lt_trans h1 h2) (Nat.lt_irrefl _)⟩

/-- The selection step of `roll` (lines 117-155 of `roller.ts`): the set of
kept indices, as the list of indices it inserts into the `Set` (membership is
what matters).  Keep: sort and take the first `keepCount` indices; drop: sort
and take every index from position `dropCount` on; otherwise keep all. -/
def keptIndices (dice : ParsedDice) (rawRolls : List Nat) : List Nat :=
  match dice.keep, dice.keepCount with
  | some mode, some n =>
    let indexed := indexedBy rawRolls
    let sorted :=
      match mode with
      | KeepMode.highest => List.insertionSort descBy indexed
      | KeepMode.lowest => List.insertionSort ascBy indexed
    (sorted.take n).map Prod.snd
  | _, _ =>
    match dice.drop, dice.dropCount with
    | some mode, some n =>
      let indexed := indexedBy rawRolls
      let sorted :=
        match mode with
        | DropMode.highest => List.insertionSort descBy indexed
        | DropMode.lowest => List.insertionSort ascBy indexed
      (sorted.drop n).map Prod.snd
    | _, _ => List.range rawRolls.length

/-- `rawRolls.map((value, index) => ({ value, kept: keptIndices.has(index) }))`:
the `DieResult`s in roll order. -/
def buildRolls (rawRolls : List Nat) (kept : List Nat) : List DieResult :=
  rawRolls.enum.map (fun p => DieResult.mk p.2 (decide (p.1 ∈ kept)))

/-- `rolls.filter(r => r.kept).reduce((sum, r) => sum + r.value, 0)`. -/
def sumKept (rolls : List DieResult) : Nat :=
  (rolls.filter (fun r => r.kept)).foldl (fun s r => s + r.value) 0

/-- `roll(dice)` from `roller.ts` (lines 112-178): draw the raw rolls, apply
the selection step, build the `DieResult`s in roll order, and total up. -/
def roll (dice : ParsedDice) (entropy : List Nat) : Option RollResult :=
  match rollDice dice.count dice.sides entropy with
  | none => none
  | some (rawRolls, _) =>
    let rolls := buildRolls rawRolls (keptIndices dice rawRolls)
    let subtotal := sumKept rolls
    some ⟨dice, rolls, subtotal, dice.modifier, (subtotal : Int) + dice.modifier⟩

/-!
## Helper lemmas
-/

theorem secureRandomLoop_bounds {max : Nat} (hmax : 1 ≤ max) :
    ∀ {e v e2}, secureRandomLoop max e = some (v, e2) → 1 ≤ v ∧ v ≤ max := by
  intro e
  induction e with
  | nil => intro v e2 h; simp [secureRandomLoop] at h
  | cons w rest ih =>
    intro v e2 h
    by_cases hw : acceptLimit max ≤ w
    · rw [secureRandomLoop, if_pos hw] at h
      exact ih h
    · rw [secureRandomLoop, if_neg hw] at h
      obtain ⟨h1, h2⟩ := Prod.mk.injEq .. ▸ Option.some.inj h
      have := Nat.mod_lt w (show 0 < max by omega)
      omega

theorem secureRandomInt_bounds {max : Nat} (hmax : 1 ≤ max) {e v e2}
    (h : secureRandomInt max e = some (v, e2)) : 1 ≤ v ∧ v ≤ max := by
  unfold secureRandomInt at h
  rw [if_neg (by omega)] at h
  by_cases h1 : max = 1
  · rw [if_pos h1] at h
    obtain ⟨h2, h3⟩ := Prod.mk.injEq .. ▸ Option.some.inj h
    omega
  · rw [if_neg h1] at h
    exact secureRandomLoop_bounds hmax h

theorem rollDice_spec {sides : Nat} (hs : 1 ≤ sides) :
    ∀ {n : Nat} {e vs e2}, rollDice n sides e = some (vs, e2) →
      vs.length = n ∧ ∀ v ∈ vs, 1 ≤ v ∧ v ≤ sides := by
  intro n
  induction n with
  | zero =>
    intro e vs e2 h
    rw [rollDice] at h
    obtain ⟨h1, h2⟩ := Prod.mk.injEq .. ▸ Option.some.inj h
    subst h1
    exact ⟨rfl, by simp⟩
  | succ k ih =>
    intro e vs e2 h
    rw [rollDice] at h
    cases hsr : secureRandomInt sides e with
    | none => rw [hsr] at h; cases h
    | some p =>
      obtain ⟨v, e1⟩ := p
      rw [hsr] at h
      dsimp only at h
      cases hrd : rollDice k sides e1 with
      | none => rw [hrd] at h; cases h
      | some q =>
        obtain ⟨vs1, e3⟩ := q
        rw [hrd] at h
        obtain ⟨h1, h2⟩ := Prod.mk.injEq .. ▸ Option.some.inj h
        subst h1
        obtain ⟨hl, hall⟩ := ih hrd
        refine ⟨by simp [hl], ?_⟩
        intro x hx
        rcases List.mem_cons.mp hx with rfl | hx
        · exact secureRandomInt_bounds hs hsr
        · exact hall x hx

theorem roll_eq_of_rollDice {d : ParsedDice} {e raws e2}
    (h : rollDice d.count d.sides e = some (raws, e2)) :
    roll d e = some ⟨d, buildRolls raws (keptIndices d raws),
      sumKept (buildRolls raws (keptIndices d raws)), d.modifier,
      (sumKept (buildRolls raws (keptIndices d raws)) : Int) + d.modifier⟩ := by
  unfold roll
  rw [h]

theorem foldl_add_value (l : List DieResult) (init : Nat) :
    l.foldl (fun s r => s + r.value) init = init + (l.map (fun r => r.value)).sum := by
  induction l generalizing init with
  | nil => simp
  | cons x xs ih => simp [List.foldl_cons, ih]; omega

theorem sumKept_eq (rolls : List DieResult) :
    sumKept rolls = ((rolls.filter (fun r => r.kept)).map (fun r => r.value)).sum := by
  unfold sumKept
  rw [foldl_add_value]
  omega

theorem buildRolls_length (raws : List Nat) (kept : List Nat) :
    (buildRolls raws kept).length = raws.length := by
  simp [buildRolls]

theorem buildRolls_map_value (raws : List Nat) (kept : List Nat) :
    (buildRolls raws kept).map (fun r => r.value) = raws := by
  unfold buildRolls
  rw [List.map_map]
  exact List.enum_map_snd raws

/-!
## Claim theorems
-/

/-- **C9**: for `sides == 1` every die draw returns 1 and leaves the entropy
stream untouched (no random word is consumed), and `rollDice` still emits one
outcome per die in position: `count` dice with one side yield
`replicate count 1` with the entropy unchanged. -/
theorem sides_one_no_randomness (e : List Nat) (n : Nat) :
    secureRandomInt 1 e = some (1, e) ∧ rollDice n 1 e = some (List.replicate n 1, e) := by
  refine ⟨rfl, ?_⟩
  induction n with
  | zero => rfl
  | succ k ih =>
    rw [rollDice, show secureRandomInt 1 e = some (1, e) from rfl]
    dsimp only
    rw [ih]
    simp [List.replicate_succ]

/-- **C10**: `parseDice("")` fails with message
`Expression must be a non-empty string` (the falsy guard fires before
trimming), a whitespace-only input fails with the distinct message
`Expression cannot be empty`, and in both cases the error carries the
original untrimmed input in its `expression` field. -/
theorem parseDice_empty_messages :
    parseDice "" = .error ⟨"Expression must be a non-empty string", ""⟩ ∧
    parseDice "   " = .error ⟨"Expression cannot be empty", "   "⟩ := by
  exact ⟨rfl, rfl⟩

/-- **C3**: for a descriptor with valid `count` and `sides` and no selection,
a successful `roll` returns exactly `count` outcomes, every outcome is kept,
every value lies in `[1, sides]`, and the total is the sum of all outcome
values plus the modifier. -/
theorem roll_no_selection_spec (d : ParsedDice) (e : List Nat) (res : RollResult)
    (hc1 : 1 ≤ d.count) (hc2 : d.count ≤ 100) (hs1 : 1 ≤ d.sides) (hs2 : d.sides ≤ 1000)
    (hk : d.keep = none) (hkc : d.keepCount = none)
    (hd : d.drop = none) (hdc : d.dropCount = none)
    (hroll : roll d e = some res) :
    res.rolls.length = d.count ∧
    (∀ r ∈ res.rolls, r.kept = true) ∧
    (∀ r ∈ res.rolls, 1 ≤ r.value ∧ r.value ≤ d.sides) ∧
    res.total = (((res.rolls.map (fun r => r.value)).sum : Nat) : Int) + d.modifier := by
  cases hrd : rollDice d.count d.sides e with
  | none => rw [roll, hrd] at hroll; cases hroll
  | some p =>
    obtain ⟨raws, e2⟩ := p
    rw [roll_eq_of_rollDice hrd] at hroll
    cases (Option.some.inj hroll).symm
    obtain ⟨hlen, hvals⟩ := rollDice_spec hs1 hrd
    have hkept : keptIndices d raws = List.range raws.length := by
      unfold keptIndices
      rw [hk, hkc, hd, hdc]
    have hflags : ∀ r ∈ buildRolls raws (keptIndices d raws), r.kept = true := by
      rw [hkept]
      intro r hr
      unfold buildRolls at hr
      obtain ⟨p, hp, rfl⟩ := List.mem_map.mp hr
      have hlt : p.1 < raws.length := by
        have h1 := List.mem_enum_iff_get?.mp hp
        obtain ⟨hlt, -⟩ := List.get?_eq_some.mp h1
        exact hlt
      simp [List.mem_range, hlt]
    refine ⟨?_, hflags, ?_, ?_⟩
    · rw [buildRolls_length, hlen]
    · intro r hr
      have hv : r.value ∈ raws := by
        rw [← buildRolls_map_value raws (keptIndices d raws)]
        exact List.mem_map_of_mem _ hr
      exact hvals _ hv
    · show (sumKept _ : Int) + d.modifier = _
      rw [sumKept_eq, List.filter_eq_self.mpr (by intro r hr; simpa using hflags r hr),
        buildRolls_map_value]

/-- Witness for `roll_no_selection_spec` at the descriptor of `2d6+3` with
entropy words `[7, 10]` (dice values 2 and 5). -/
theorem roll_no_selection_spec_witness :
    roll ⟨2, 6, 3, none, none, none, none⟩ [7, 10] =
      some ⟨⟨2, 6, 3, none, none, none, none⟩,
        [⟨2, true⟩, ⟨5, true⟩], 7, 3, 10⟩ ∧
    (([(⟨2, true⟩ : DieResult), ⟨5, true⟩]).length = 2 ∧
     (∀ r ∈ [(⟨2, true⟩ : DieResult), ⟨5, true⟩], r.kept = true) ∧
     (∀ r ∈ [(⟨2, true⟩ : DieResult), ⟨5, true⟩], 1 ≤ r.value ∧ r.value ≤ 6) ∧
     (10 : Int) = (((([(⟨2, true⟩ : DieResult), ⟨5, true⟩].map (fun r => r.value)).sum : Nat) : Int) + 3)) :=
  ⟨by decide,
   roll_no_selection_spec ⟨2, 6, 3, none, none, none, none⟩ [7, 10]
     ⟨⟨2, 6, 3, none, none, none, none⟩, [⟨2, true⟩, ⟨5, true⟩], 7, 3, 10⟩
     (by decide) (by decide) (by decide) (by decide) rfl rfl rfl rfl (by decide)⟩

/-- **C4**: for every valid descriptor and every successful invocation,
`subtotal` is the sum of the values of the kept outcomes, `total` is
`subtotal + modifier`, and the outcomes preserve draw order: the values of
the outcomes are exactly the raw values drawn by `rollDice`, in order. -/
theorem roll_totals_and_order (d : ParsedDice) (e e2 : List Nat) (raws : List Nat)
    (res : RollResult)
    (hc1 : 1 ≤ d.count) (hc2 : d.count ≤ 100) (hs1 : 1 ≤ d.sides) (hs2 : d.sides ≤ 1000)
    (hkc : d.keepCount = none ∨ ∃ n, d.keepCount = some n ∧ 1 ≤ n ∧ n ≤ d.count)
    (hdc : d.dropCount = none ∨ ∃ n, d.dropCount = some n ∧ 1 ≤ n ∧ n < d.count)
    (hrd : rollDice d.count d.sides e = some (raws, e2))
    (hroll : roll d e = some res) :
    res.subtotal = ((res.rolls.filter (fun r => r.kept)).map (fun r => r.value)).sum ∧
    res.total = (res.subtotal : Int) + res.modifier ∧
    res.modifier = d.modifier ∧
    res.rolls.map (fun r => r.value) = raws := by
  rw [roll_eq_of_rollDice hrd] at hroll
  cases (Option.some.inj hroll).symm
  exact ⟨sumKept_eq _, rfl, rfl, buildRolls_map_value _ _⟩

/-- Witness for `roll_totals_and_order` at the descriptor of `2d20kh1` with
entropy words `[5, 3]` (dice values 6 and 4; the 6 is kept). -/
theorem roll_totals_and_order_witness :
    rollDice 2 20 [5, 3] = some ([6, 4], []) ∧
    roll ⟨2, 20, 0, some KeepMode.highest, some 1, none, none⟩ [5, 3] =
      some ⟨⟨2, 20, 0, some KeepMode.highest, some 1, none, none⟩,
        [⟨6, true⟩, ⟨4, false⟩], 6, 0, 6⟩ ∧
    ((6 : Nat) = (([(⟨6, true⟩ : DieResult), ⟨4, false⟩].filter
        (fun r => r.kept)).map (fun r => r.value)).sum ∧
     (6 : Int) = ((6 : Nat) : Int) + 0 ∧
     (0 : Int) = (0 : Int) ∧
     [(⟨6, true⟩ : DieResult), ⟨4, false⟩].map (fun r => r.value) = [6, 4]) :=
  ⟨by decide, by decide,
   roll_totals_and_order ⟨2, 20, 0, some KeepMode.highest, some 1, none, none⟩
     [5, 3] [] [6, 4]
     ⟨⟨2, 20, 0, some KeepMode.highest, some 1, none, none⟩, [⟨6, true⟩, ⟨4, false⟩], 6, 0, 6⟩
     (by decide) (by decide) (by decide) (by decide)
     (Or.inr ⟨1, rfl, by decide, by decide⟩) (Or.inl rfl)
     (by decide) (by decide)⟩

theorem filter_mod_card (s k r : Nat) (hs : 0 < s) (hr : r < s) :
    ((Finset.range (s * k)).filter (fun w => w % s = r)).card = k := by
  have himg : (Finset.range (s * k)).filter (fun w => w % s = r)
      = (Finset.range k).image (fun q => s * q + r) := by
    ext w
    simp only [Finset.mem_filter, Finset.mem_range, Finset.mem_image]
    constructor
    · rintro ⟨hw, hmod⟩
      refine ⟨w / s, Nat.div_lt_of_lt_mul hw, ?_⟩
      have := Nat.div_add_mod w s
      omega
    · rintro ⟨q, hq, rfl⟩
      refine ⟨?_, ?_⟩
      · calc s * q + r < s * (q + 1) := by nlinarith
          _ ≤ s * k := Nat.mul_le_mul_left s hq
      · simp [Nat.mul_add_mod, Nat.mod_eq_of_lt hr]
  rw [himg, Finset.card_image_of_injective _ ?_, Finset.card_range]
  intro a b hab
  simp only at hab
  exact Nat.eq_of_mul_eq_mul_left hs (Nat.add_right_cancel hab)

/-- **C8**: the rejection sampler is exactly uniform.  For every
`sides ∈ [2, 1000]`: the word ceiling is `2^32 - 1`, the accepted region
`[0, limit)` with `limit = sides * floor((2^32 - 1) / sides)` is an exact
multiple of `sides`, every value in `[1, sides]` is hit by exactly
`limit / sides` accepted 32-bit words, and the number of rejected words
(`2^32 - limit`) is below 0.0001% of `2^32`. -/
theorem secureRandomInt_uniformity (s : Nat) (h2 : 2 ≤ s) (hs : s ≤ 1000) :
    maxUint32 = 2 ^ 32 - 1 ∧
    acceptLimit s = s * ((2 ^ 32 - 1) / s) ∧
    s ∣ acceptLimit s ∧
    (∀ v, 1 ≤ v → v ≤ s →
      ((Finset.range (2 ^ 32)).filter (fun w => w < acceptLimit s ∧ w % s + 1 = v)).card
        = acceptLimit s / s) ∧
    (2 ^ 32 - acceptLimit s) * 1000000 < 2 ^ 32 := by
  have hsp : 0 < s := by omega
  have hmax : maxUint32 = 2 ^ 32 - 1 := by norm_num [maxUint32]
  have hmod : maxUint32 % s < s := Nat.mod_lt _ hsp
  have key : acceptLimit s = s * (maxUint32 / s) := by
    unfold acceptLimit
    have := Nat.div_add_mod maxUint32 s
    omega
  have hdvd : s ∣ acceptLimit s := ⟨maxUint32 / s, key⟩
  have hcancel : s * (acceptLimit s / s) = acceptLimit s := Nat.mul_div_cancel' hdvd
  have hlim_le : acceptLimit s ≤ 2 ^ 32 := by
    unfold acceptLimit maxUint32
    have h32 : (2 : Nat) ^ 32 = 4294967296 := by norm_num
    omega
  refine ⟨hmax, hmax ▸ key, hdvd, ?_, ?_⟩
  · intro v hv1 hv2
    have hstep :
        (Finset.range (2 ^ 32)).filter (fun w => w < acceptLimit s ∧ w % s + 1 = v)
          = (Finset.range (s * (acceptLimit s / s))).filter (fun w => w % s = v - 1) := by
      ext w
      simp only [Finset.mem_filter, Finset.mem_range, hcancel]
      constructor
      · rintro ⟨-, hwl, hwm⟩
        exact ⟨hwl, by omega⟩
      · rintro ⟨hwl, hwm⟩
        have hws : w % s < s := Nat.mod_lt _ hsp
        exact ⟨lt_of_lt_of_le hwl hlim_le, hwl, by omega⟩
    rw [hstep, filter_mod_card s (acceptLimit s / s) (v - 1) hsp (by omega)]
  · unfold acceptLimit at hlim_le ⊢
    unfold maxUint32 at hmod hlim_le ⊢
    have h32 : (2 : Nat) ^ 32 = 4294967296 := by norm_num
    omega

/-- Witness for `secureRandomInt_uniformity` at `sides = 6`. -/
theorem secureRandomInt_uniformity_witness :
    (2 ≤ 6 ∧ 6 ≤ 1000) ∧
    (maxUint32 = 2 ^ 32 - 1 ∧
     acceptLimit 6 = 6 * ((2 ^ 32 - 1) / 6) ∧
     6 ∣ acceptLimit 6 ∧
     (∀ v, 1 ≤ v → v ≤ 6 →
       ((Finset.range (2 ^ 32)).filter (fun w => w < acceptLimit 6 ∧ w % 6 + 1 = v)).card
         = acceptLimit 6 / 6) ∧
     (2 ^ 32 - acceptLimit 6) * 1000000 < 2 ^ 32) :=
  ⟨⟨by decide, by decide⟩, secureRandomInt_uniformity 6 (by decide) (by decide)⟩

theorem parseDice_of_match {e : String} {m : KhKlMatch}
    (hm : matchDice (trimList e.data) = some m) :
    parseDice e = validateMatch e m := by
  have hnil : matchDice ([] : List Char) = none := rfl
  have hne : e ≠ "" := by
    rintro rfl
    rw [show trimList (String.data "") = ([] : List Char) from rfl, hnil] at hm
    cases hm
  have hlen : ¬((trimList e.data).length = 0) := by
    intro h0
    rw [List.length_eq_zero.mp h0, hnil] at hm
    cases hm
  unfold parseDice
  rw [if_neg hne]
  dsimp only
  rw [if_neg hlen, hm]

theorem parseDiceFull_of_match {e : String} {m : FullMatch}
    (hm : matchDiceFull (trimList e.data) = some m) :
    parseDiceFull e = validateMatchFull e m := by
  have hnil : matchDiceFull ([] : List Char) = none := rfl
  have hne : e ≠ "" := by
    rintro rfl
    rw [show trimList (String.data "") = ([] : List Char) from rfl, hnil] at hm
    cases hm
  have hlen : ¬((trimList e.data).length = 0) := by
    intro h0
    rw [List.length_eq_zero.mp h0, hnil] at hm
    cases hm
  unfold parseDiceFull
  rw [if_neg hne]
  dsimp only
  rw [if_neg hlen, hm]

/-- **C6**: for every input whose whitespace-trimmed form matches the
kh/kl grammar, `parseDice` succeeds iff `1 ≤ count ≤ 100`, `1 ≤ sides ≤ 1000`
and, when a keep selector is present, `1 ≤ n ≤ count`; on success the
descriptor applies the defaults (omitted count is 1, omitted modifier is 0);
and each violated bound fails, in validation order, with its specified
message, the error carrying the original expression. -/
theorem parseDice_grammar_validation (e : String) (m : KhKlMatch)
    (hm : matchDice (trimList e.data) = some m) :
    ((∃ d, parseDice e = .ok d) ↔
      (1 ≤ khCount m ∧ khCount m ≤ 100 ∧ 1 ≤ khSides m ∧ khSides m ≤ 1000 ∧
        ∀ t ds, m.keepPart = some (t, ds) →
          1 ≤ digitsToNat ds ∧ digitsToNat ds ≤ khCount m)) ∧
    (∀ d, parseDice e = .ok d → d = khResult m) ∧
    (khCount m < 1 →
      parseDice e = .error ⟨"Invalid dice count: " ++ toString (khCount m) ++
        ". Must be at least 1", e⟩) ∧
    (khCount m > 100 →
      parseDice e = .error ⟨"Invalid dice count: " ++ toString (khCount m) ++
        ". Maximum is 100 dice", e⟩) ∧
    (1 ≤ khCount m → khCount m ≤ 100 → khSides m < 1 →
      parseDice e = .error ⟨"Invalid number of sides: " ++ toString (khSides m) ++
        ". Must be at least 1", e⟩) ∧
    (1 ≤ khCount m → khCount m ≤ 100 → khSides m > 1000 →
      parseDice e = .error ⟨"Invalid number of sides: " ++ toString (khSides m) ++
        ". Maximum is 1000", e⟩) ∧
    (∀ t ds, m.keepPart = some (t, ds) →
      1 ≤ khCount m → khCount m ≤ 100 → 1 ≤ khSides m → khSides m ≤ 1000 →
      digitsToNat ds < 1 →
      parseDice e = .error ⟨"Invalid keep count: " ++ toString (digitsToNat ds) ++
        ". Must be at least 1", e⟩) ∧
    (∀ t ds, m.keepPart = some (t, ds) →
      1 ≤ khCount m → khCount m ≤ 100 → 1 ≤ khSides m → khSides m ≤ 1000 →
      digitsToNat ds > khCount m →
      parseDice e = .error ⟨"Invalid keep count: " ++ toString (digitsToNat ds) ++
        ". Cannot keep more dice than rolled (" ++ toString (khCount m) ++ ")", e⟩) := by
  have hpe := parseDice_of_match hm
  have herr1 : khCount m < 1 →
      parseDice e = .error ⟨"Invalid dice count: " ++ toString (khCount m) ++
        ". Must be at least 1", e⟩ := by
    intro h1
    rw [hpe]
    unfold validateMatch
    dsimp only
    rw [if_pos h1]
  have herr2 : khCount m > 100 →
      parseDice e = .error ⟨"Invalid dice count: " ++ toString (khCount m) ++
        ". Maximum is 100 dice", e⟩ := by
    intro h2
    rw [hpe]
    unfold validateMatch
    dsimp only
    rw [if_neg (by omega), if_pos h2]
  have herr3 : 1 ≤ khCount m → khCount m ≤ 100 → khSides m < 1 →
      parseDice e = .error ⟨"Invalid number of sides: " ++ toString (khSides m) ++
        ". Must be at least 1", e⟩ := by
    intro h1 h2 h3
    rw [hpe]
    unfold validateMatch
    dsimp only
    rw [if_neg (by omega), if_neg (by omega), if_pos h3]
  have herr4 : 1 ≤ khCount m → khCount m ≤ 100 → khSides m > 1000 →
      parseDice e = .error ⟨"Invalid number of sides: " ++ toString (khSides m) ++
        ". Maximum is 1000", e⟩ := by
    intro h1 h2 h4
    rw [hpe]
    unfold validateMatch
    dsimp only
    rw [if_neg (by omega), if_neg (by omega), if_neg (by omega), if_pos h4]
  have hkeepInfo : ∀ t ds, m.keepPart = some (t, ds) →
      ∃ mode, khKeepInfo m = some (mode, digitsToNat ds) := by
    intro t ds hds
    cases t
    · exact ⟨KeepMode.highest, by unfold khKeepInfo; rw [hds]⟩
    · exact ⟨KeepMode.lowest, by unfold khKeepInfo; rw [hds]⟩
  have herr5 : ∀ t ds, m.keepPart = some (t, ds) →
      1 ≤ khCount m → khCount m ≤ 100 → 1 ≤ khSides m → khSides m ≤ 1000 →
      digitsToNat ds < 1 →
      parseDice e = .error ⟨"Invalid keep count: " ++ toString (digitsToNat ds) ++
        ". Must be at least 1", e⟩ := by
    intro t ds hds h1 h2 h3 h4 h5
    obtain ⟨mode, hki⟩ := hkeepInfo t ds hds
    rw [hpe]
    unfold validateMatch
    dsimp only
    rw [if_neg (by omega), if_neg (by omega), if_neg (by omega), if_neg (by omega), hki]
    dsimp only
    rw [if_pos h5]
  have herr6 : ∀ t ds, m.keepPart = some (t, ds) →
      1 ≤ khCount m → khCount m ≤ 100 → 1 ≤ khSides m → khSides m ≤ 1000 →
      digitsToNat ds > khCount m →
      parseDice e = .error ⟨"Invalid keep count: " ++ toString (digitsToNat ds) ++
        ". Cannot keep more dice than rolled (" ++ toString (khCount m) ++ ")", e⟩ := by
    intro t ds hds h1 h2 h3 h4 h6
    obtain ⟨mode, hki⟩ := hkeepInfo t ds hds
    rw [hpe]
    unfold validateMatch
    dsimp only
    rw [if_neg (by omega), if_neg (by omega), if_neg (by omega), if_neg (by omega), hki]
    dsimp only
    rw [if_neg (by omega), if_pos h6]
  have hsucc : (1 ≤ khCount m ∧ khCount m ≤ 100 ∧ 1 ≤ khSides m ∧ khSides m ≤ 1000 ∧
      ∀ t ds, m.keepPart = some (t, ds) →
        1 ≤ digitsToNat ds ∧ digitsToNat ds ≤ khCount m) →
      parseDice e = .ok (khResult m) := by
    rintro ⟨h1, h2, h3, h4, h5⟩
    rw [hpe]
    unfold validateMatch
    dsimp only
    rw [if_neg (by omega), if_neg (by omega), if_neg (by omega), if_neg (by omega)]
    cases hkp : m.keepPart with
    | none =>
      have hki : khKeepInfo m = none := by unfold khKeepInfo; rw [hkp]
      rw [hki]
      unfold khResult
      rw [hki]
      rfl
    | some p =>
      obtain ⟨t, ds⟩ := p
      obtain ⟨hn1, hn2⟩ := h5 t ds hkp
      obtain ⟨mode, hki⟩ := hkeepInfo t ds hkp
      rw [hki]
      dsimp only
      rw [if_neg (by omega), if_neg (by omega)]
      unfold khResult
      rw [hki]
      rfl
  refine ⟨⟨?_, fun hb => ⟨khResult m, hsucc hb⟩⟩, ?_, herr1, herr2, herr3, herr4, herr5, herr6⟩
  · rintro ⟨d, hd⟩
    by_cases h1 : 1 ≤ khCount m
    case neg => rw [herr1 (by omega)] at hd; cases hd
    by_cases h2 : khCount m ≤ 100
    case neg => rw [herr2 (by omega)] at hd; cases hd
    by_cases h3 : 1 ≤ khSides m
    case neg => rw [herr3 h1 h2 (by omega)] at hd; cases hd
    by_cases h4 : khSides m ≤ 1000
    case neg => rw [herr4 h1 h2 (by omega)] at hd; cases hd
    by_cases h5 : ∀ t ds, m.keepPart = some (t, ds) →
        1 ≤ digitsToNat ds ∧ digitsToNat ds ≤ khCount m
    case neg =>
      push_neg at h5
      obtain ⟨t, ds, hds, hbad⟩ := h5
      by_cases hn : digitsToNat ds < 1
      · rw [herr5 t ds hds h1 h2 h3 h4 hn] at hd; cases hd
      · rw [herr6 t ds hds h1 h2 h3 h4 (hbad (by omega))] at hd; cases hd
    exact ⟨h1, h2, h3, h4, h5⟩
  · intro d hd
    have hb : 1 ≤ khCount m ∧ khCount m ≤ 100 ∧ 1 ≤ khSides m ∧ khSides m ≤ 1000 ∧
        ∀ t ds, m.keepPart = some (t, ds) →
          1 ≤ digitsToNat ds ∧ digitsToNat ds ≤ khCount m := by
      by_cases h1 : 1 ≤ khCount m
      case neg => rw [herr1 (by omega)] at hd; cases hd
      by_cases h2 : khCount m ≤ 100
      case neg => rw [herr2 (by omega)] at hd; cases hd
      by_cases h3 : 1 ≤ khSides m
      case neg => rw [herr3 h1 h2 (by omega)] at hd; cases hd
      by_cases h4 : khSides m ≤ 1000
      case neg => rw [herr4 h1 h2 (by omega)] at hd; cases hd
      by_cases h5 : ∀ t ds, m.keepPart = some (t, ds) →
          1 ≤ digitsToNat ds ∧ digitsToNat ds ≤ khCount m
      case neg =>
        push_neg at h5
        obtain ⟨t, ds, hds, hbad⟩ := h5
        by_cases hn : digitsToNat ds < 1
        · rw [herr5 t ds hds h1 h2 h3 h4 hn] at hd; cases hd
        · rw [herr6 t ds hds h1 h2 h3 h4 (hbad (by omega))] at hd; cases hd
      exact ⟨h1, h2, h3, h4, h5⟩
    rw [hsucc hb] at hd
    exact (Except.ok.inj hd).symm

/-- Witness for `parseDice_grammar_validation` at `"d20"` (implicit count). -/
theorem parseDice_grammar_validation_witness :
    matchDice (trimList (String.data "d20")) =
      some ⟨[], ['2', '0'], none, none⟩ ∧
    ((∃ d, parseDice "d20" = .ok d) ↔
      (1 ≤ khCount ⟨[], ['2', '0'], none, none⟩ ∧
        khCount ⟨[], ['2', '0'], none, none⟩ ≤ 100 ∧
        1 ≤ khSides ⟨[], ['2', '0'], none, none⟩ ∧
        khSides ⟨[], ['2', '0'], none, none⟩ ≤ 1000 ∧
        ∀ t ds, (⟨[], ['2', '0'], none, none⟩ : KhKlMatch).keepPart = some (t, ds) →
          1 ≤ digitsToNat ds ∧ digitsToNat ds ≤ khCount ⟨[], ['2', '0'], none, none⟩)) ∧
    (∀ d, parseDice "d20" = .ok d → d = khResult ⟨[], ['2', '0'], none, none⟩) :=
  ⟨rfl,
   (parseDice_grammar_validation "d20" ⟨[], ['2', '0'], none, none⟩ rfl).1,
   (parseDice_grammar_validation "d20" ⟨[], ['2', '0'], none, none⟩ rfl).2.1⟩

theorem fullInfo_of_drop {m : FullMatch} {tag : SelTag} {ds : List Char} {mode : DropMode}
    (hds : m.selPart = some (tag, ds)) (htag : dropModeOf tag = some mode) :
    fullKeepInfo m = none ∧ fullDropInfo m = some (mode, digitsToNat ds) := by
  cases tag
  · cases htag
  · cases htag
  · exact ⟨by unfold fullKeepInfo; rw [hds], by
      unfold fullDropInfo; rw [hds]; cases htag; rfl⟩
  · exact ⟨by unfold fullKeepInfo; rw [hds], by
      unfold fullDropInfo; rw [hds]; cases htag; rfl⟩

/-- **C1**: the (spec-modelled) parser accepts drop selectors: for every
expression whose trimmed form matches the grammar with a `dh`/`dl` selector
and in-bounds count, sides, and drop count, parsing succeeds with the
corresponding Drop selection; in particular `parse("4d6dl1")` yields
`{count: 4, sides: 6, modifier: 0, selection: DropLowest(1)}`. -/
theorem parseDiceFull_drop_selector :
    (∀ (e : String) (m : FullMatch) (tag : SelTag) (ds : List Char) (mode : DropMode),
      matchDiceFull (trimList e.data) = some m →
      m.selPart = some (tag, ds) →
      dropModeOf tag = some mode →
      1 ≤ fullCount m → fullCount m ≤ 100 →
      1 ≤ fullSides m → fullSides m ≤ 1000 →
      1 ≤ digitsToNat ds → digitsToNat ds < fullCount m →
      parseDiceFull e = .ok { count := fullCount m, sides := fullSides m,
                              modifier := fullModifier m, keep := none, keepCount := none,
                              drop := some mode, dropCount := some (digitsToNat ds) }) ∧
    parseDiceFull "4d6dl1" = .ok { count := 4, sides := 6, modifier := 0,
                                   keep := none, keepCount := none,
                                   drop := some DropMode.lowest, dropCount := some 1 } := by
  have hgen : ∀ (e : String) (m : FullMatch) (tag : SelTag) (ds : List Char) (mode : DropMode),
      matchDiceFull (trimList e.data) = some m →
      m.selPart = some (tag, ds) →
      dropModeOf tag = some mode →
      1 ≤ fullCount m → fullCount m ≤ 100 →
      1 ≤ fullSides m → fullSides m ≤ 1000 →
      1 ≤ digitsToNat ds → digitsToNat ds < fullCount m →
      parseDiceFull e = .ok { count := fullCount m, sides := fullSides m,
                              modifier := fullModifier m, keep := none, keepCount := none,
                              drop := some mode, dropCount := some (digitsToNat ds) } := by
    intro e m tag ds mode hm hds htag h1 h2 h3 h4 h5 h6
    obtain ⟨hki, hdi⟩ := fullInfo_of_drop hds htag
    rw [parseDiceFull_of_match hm]
    unfold validateMatchFull
    dsimp only
    rw [if_neg (by omega), if_neg (by omega), if_neg (by omega), if_neg (by omega), hki, hdi]
    dsimp only
    rw [if_neg (by omega), if_neg (by omega)]
  exact ⟨hgen, by
    have := hgen "4d6dl1" ⟨['4'], ['6'], some (SelTag.dl, ['1']), none⟩
      SelTag.dl ['1'] DropMode.lowest rfl rfl rfl
      (by decide) (by decide) (by decide) (by decide) (by decide) (by decide)
    simpa using this⟩

/-- Witness for `parseDiceFull_drop_selector` (its first component carries
hypotheses) at the expression `"4d6dl1"`. -/
theorem parseDiceFull_drop_selector_witness :
    matchDiceFull (trimList (String.data "4d6dl1")) =
      some ⟨['4'], ['6'], some (SelTag.dl, ['1']), none⟩ ∧
    parseDiceFull "4d6dl1" =
      .ok { count := fullCount ⟨['4'], ['6'], some (SelTag.dl, ['1']), none⟩,
            sides := fullSides ⟨['4'], ['6'], some (SelTag.dl, ['1']), none⟩,
            modifier := fullModifier ⟨['4'], ['6'], some (SelTag.dl, ['1']), none⟩,
            keep := none, keepCount := none,
            drop := some DropMode.lowest, dropCount := some (digitsToNat ['1']) } :=
  ⟨rfl,
   parseDiceFull_drop_selector.1 "4d6dl1" ⟨['4'], ['6'], some (SelTag.dl, ['1']), none⟩
     SelTag.dl ['1'] DropMode.lowest rfl rfl rfl
     (by decide) (by decide) (by decide) (by decide) (by decide) (by decide)⟩

/-- **C7**: the (spec-modelled) parser rejects drop selectors that would drop
all or more dice than rolled: when count and sides are in bounds and the drop
count `n` satisfies `n ≥ count`, parsing fails with the
"Cannot drop all or more dice than rolled" reason; in particular
`parseDice("2d20dh2")` fails with that reason. -/
theorem parseDiceFull_drop_bound_error :
    (∀ (e : String) (m : FullMatch) (tag : SelTag) (ds : List Char) (mode : DropMode),
      matchDiceFull (trimList e.data) = some m →
      m.selPart = some (tag, ds) →
      dropModeOf tag = some mode →
      1 ≤ fullCount m → fullCount m ≤ 100 →
      1 ≤ fullSides m → fullSides m ≤ 1000 →
      digitsToNat ds ≥ fullCount m →
      parseDiceFull e = .error ⟨"Invalid drop count: " ++ toString (digitsToNat ds) ++
        ". Cannot drop all or more dice than rolled (" ++ toString (fullCount m) ++ ")", e⟩) ∧
    parseDiceFull "2d20dh2" = .error
      ⟨"Invalid drop count: 2. Cannot drop all or more dice than rolled (2)", "2d20dh2"⟩ := by
  have hgen : ∀ (e : String) (m : FullMatch) (tag : SelTag) (ds : List Char) (mode : DropMode),
      matchDiceFull (trimList e.data) = some m →
      m.selPart = some (tag, ds) →
      dropModeOf tag = some mode →
      1 ≤ fullCount m → fullCount m ≤ 100 →
      1 ≤ fullSides m → fullSides m ≤ 1000 →
      digitsToNat ds ≥ fullCount m →
      parseDiceFull e = .error ⟨"Invalid drop count: " ++ toString (digitsToNat ds) ++
        ". Cannot drop all or more dice than rolled (" ++ toString (fullCount m) ++ ")", e⟩ := by
    intro e m tag ds mode hm hds htag h1 h2 h3 h4 h6
    obtain ⟨hki, hdi⟩ := fullInfo_of_drop hds htag
    rw [parseDiceFull_of_match hm]
    unfold validateMatchFull
    dsimp only
    rw [if_neg (by omega), if_neg (by omega), if_neg (by omega), if_neg (by omega), hki, hdi]
    dsimp only
    rw [if_neg (by omega), if_pos (by omega)]
  exact ⟨hgen, by
    have := hgen "2d20dh2" ⟨['2'], ['2', '0'], some (SelTag.dh, ['2']), none⟩
      SelTag.dh ['2'] DropMode.highest rfl rfl rfl
      (by decide) (by decide) (by decide) (by decide) (by decide)
    simpa using this⟩

/-- Witness for `parseDiceFull_drop_bound_error` at `"2d20dh2"`. -/
theorem parseDiceFull_drop_bound_error_witness :
    matchDiceFull (trimList (String.data "2d20dh2")) =
      some ⟨['2'], ['2', '0'], some (SelTag.dh, ['2']), none⟩ ∧
    parseDiceFull "2d20dh2" = .error
      ⟨"Invalid drop count: " ++ toString (digitsToNat ['2']) ++
        ". Cannot drop all or more dice than rolled (" ++
        toString (fullCount ⟨['2'], ['2', '0'], some (SelTag.dh, ['2']), none⟩) ++ ")",
        "2d20dh2"⟩ :=
  ⟨rfl,
   parseDiceFull_drop_bound_error.1 "2d20dh2" ⟨['2'], ['2', '0'], some (SelTag.dh, ['2']), none⟩
     SelTag.dh ['2'] DropMode.highest rfl rfl rfl
     (by decide) (by decide) (by decide) (by decide) (by decide)⟩

theorem pair_sublist_of_get? {α : Type} : ∀ {L : List α} {i j : Nat} {a b : α},
    i < j → L.get? i = some a → L.get? j = some b → List.Sublist [a, b] L := by
  intro L
  induction L with
  | nil =>
    intro i j a b hij ha hb
    simp at ha
  | cons x xs ih =>
    intro i j a b hij ha hb
    cases i with
    | zero =>
      rw [List.get?_cons_zero] at ha
      cases Option.some.inj ha
      cases j with
      | zero => omega
      | succ m =>
        rw [List.get?_cons_succ] at hb
        exact List.Sublist.cons₂ x (List.singleton_sublist.mpr (List.get?_mem hb))
    | succ k =>
      cases j with
      | zero => omega
      | succ m =>
        rw [List.get?_cons_succ] at ha hb
        exact List.Sublist.cons x (ih (by omega) ha hb)

theorem mem_indexedBy {raws : List Nat} {v k : Nat} :
    (v, k) ∈ indexedBy raws ↔ raws.get? k = some v := by
  unfold indexedBy
  rw [List.mem_map]
  constructor
  · rintro ⟨q, hq, hfq⟩
    obtain ⟨qi, qv⟩ := q
    obtain ⟨rfl, rfl⟩ := Prod.mk.injEq .. ▸ hfq
    exact List.mem_enum_iff_get?.mp hq
  · intro h
    exact ⟨(k, v), List.mem_enum_iff_get?.mpr h, rfl⟩

theorem indexedBy_pairwise_snd (raws : List Nat) :
    (indexedBy raws).Pairwise (fun p q => p.2 < q.2) := by
  unfold indexedBy
  rw [List.pairwise_map]
  rw [List.pairwise_iff_getElem]
  intro i j hi hj hij
  simp only [List.getElem_enum]
  simpa using hij

theorem indexedBy_nodup (raws : List Nat) : (indexedBy raws).Nodup := by
  have h := indexedBy_pairwise_snd raws
  exact h.imp fun hlt heq => by subst heq; omega

theorem indexedBy_length (raws : List Nat) : (indexedBy raws).length = raws.length := by
  simp [indexedBy]

theorem indexedBy_get? (raws : List Nat) (k : Nat) (hk : k < raws.length) :
    (indexedBy raws).get? k = some (raws.getD k 0, k) := by
  have hk2 : k < (indexedBy raws).length := by rw [indexedBy_length]; exact hk
  rw [List.get?_eq_get hk2]
  congr 1
  unfold indexedBy
  rw [List.get_eq_getElem]
  simp only [List.getElem_map, List.getElem_enum]
  rw [List.getD_eq_get raws 0 hk, List.get_eq_getElem]

/-- Stability of the selection sort: if an earlier die `i` has the same value
as a later die `j` and `j`'s index survives `take n`, then so does `i`'s.
Holds for any comparator relation that accepts equal-value pairs in either
order (both `descBy` and `ascBy` do). -/
theorem take_map_snd_stable {r : Nat × Nat → Nat × Nat → Prop} [DecidableRel r]
    (hrefl : ∀ p q : Nat × Nat, p.1 = q.1 → r p q)
    (raws : List Nat) (n i j : Nat)
    (hij : i < j) (hj : j < raws.length)
    (hv : raws.getD i 0 = raws.getD j 0)
    (hjmem : j ∈ ((List.insertionSort r (indexedBy raws)).take n).map Prod.snd) :
    i ∈ ((List.insertionSort r (indexedBy raws)).take n).map Prod.snd := by
  set sorted := List.insertionSort r (indexedBy raws) with hsorted
  have hi : i < raws.length := by omega
  obtain ⟨p, hpA, hp2⟩ := List.mem_map.mp hjmem
  have hpS : p ∈ sorted := List.mem_of_mem_take hpA
  have hpI : p ∈ indexedBy raws := ((List.perm_insertionSort r _).mem_iff).mp hpS
  have hpj : p = (raws.getD j 0, j) := by
    obtain ⟨v, k⟩ := p
    simp only at hp2
    subst hp2
    have hpg : raws.get? k = some v := mem_indexedBy.mp hpI
    rw [List.get?_eq_get hj] at hpg
    have hv2 : v = raws.get ⟨k, hj⟩ := (Option.some.inj hpg).symm
    rw [hv2, List.getD_eq_get raws 0 hj]
  have hpiI : ((raws.getD i 0, i) : Nat × Nat) ∈ indexedBy raws := by
    apply mem_indexedBy.mpr
    rw [List.get?_eq_get hi, List.getD_eq_get raws 0 hi]
  have hsub0 : List.Sublist [((raws.getD i 0, i) : Nat × Nat), p] (indexedBy raws) := by
    rw [hpj]
    exact pair_sublist_of_get? hij (indexedBy_get? raws i hi) (indexedBy_get? raws j hj)
  have hr : r (raws.getD i 0, i) p := by
    rw [hpj]
    exact hrefl _ _ hv
  have hsubS : List.Sublist [((raws.getD i 0, i) : Nat × Nat), p] sorted :=
    List.pair_sublist_insertionSort hr hsub0
  by_contra hni
  have hndS : sorted.Nodup := ((List.perm_insertionSort r _).nodup_iff).mpr (indexedBy_nodup raws)
  have hsplit := List.take_append_drop n sorted
  have hdisj : (sorted.take n).Disjoint (sorted.drop n) := by
    apply List.disjoint_of_nodup_append
    rw [hsplit]
    exact hndS
  have hpiS : ((raws.getD i 0, i) : Nat × Nat) ∈ sorted :=
    ((List.perm_insertionSort r _).mem_iff).mpr hpiI
  have hpiB : ((raws.getD i 0, i) : Nat × Nat) ∈ sorted.drop n := by
    rcases List.mem_append.mp (by rw [hsplit]; exact hpiS) with hA | hB
    · exact absurd (List.mem_map.mpr ⟨_, hA, rfl⟩) hni
    · exact hB
  rw [← hsplit] at hsubS
  rcases List.sublist_append_iff.mp hsubS with ⟨l1, l2, heq, h1, h2⟩
  cases l1 with
  | nil =>
    rw [List.nil_append] at heq
    have hpB : p ∈ sorted.drop n := h2.subset (by rw [← heq]; simp)
    exact hdisj hpA hpB
  | cons x l1t =>
    have hx : ((raws.getD i 0, i) : Nat × Nat) = x := (List.cons.injEq .. ▸ heq).1
    have hpiA : ((raws.getD i 0, i) : Nat × Nat) ∈ sorted.take n :=
      h1.subset (by rw [← hx]; exact List.mem_cons_self _ _)
    exact hdisj hpiA hpiB

/-- **C5**: tie-breaking in keep selection is stable with respect to roll
order: under KeepHighest/KeepLowest, if an earlier die has the same value as a
later die whose index is kept, the earlier die's index is kept too; and in
particular for `2d20kh1` the outcomes mark exactly one die kept — the
strictly larger one, or the earlier one on a tie. -/
theorem keep_tie_stability :
    (∀ (mode : KeepMode) (c s : Nat) (mo : Int) (n : Nat) (raws : List Nat) (i j : Nat),
      i < j → j < raws.length → raws.getD i 0 = raws.getD j 0 →
      j ∈ keptIndices ⟨c, s, mo, some mode, some n, none, none⟩ raws →
      i ∈ keptIndices ⟨c, s, mo, some mode, some n, none, none⟩ raws) ∧
    (∀ (a b : Nat) (e e2 : List Nat) (res : RollResult),
      rollDice 2 20 e = some ([a, b], e2) →
      roll ⟨2, 20, 0, some KeepMode.highest, some 1, none, none⟩ e = some res →
      res.rolls = [⟨a, decide (b ≤ a)⟩, ⟨b, decide (a < b)⟩]) := by
  constructor
  · intro mode c s mo n raws i j hij hj hv hjmem
    cases mode
    · exact take_map_snd_stable (r := descBy)
        (fun p q h => by unfold descBy; omega) raws n i j hij hj hv hjmem
    · exact take_map_snd_stable (r := ascBy)
        (fun p q h => by unfold ascBy; omega) raws n i j hij hj hv hjmem
  · intro a b e e2 res hrd hroll
    rw [roll_eq_of_rollDice (d := ⟨2, 20, 0, some KeepMode.highest, some 1, none, none⟩) hrd]
      at hroll
    cases (Option.some.inj hroll).symm
    show buildRolls [a, b] (keptIndices ⟨2, 20, 0, some KeepMode.highest, some 1, none, none⟩
      [a, b]) = _
    have hkept : keptIndices ⟨2, 20, 0, some KeepMode.highest, some 1, none, none⟩ [a, b]
        = if b ≤ a then [0] else [1] := by
      show ((List.insertionSort descBy (indexedBy [a, b])).take 1).map Prod.snd = _
      rw [show indexedBy [a, b] = [(a, 0), (b, 1)] from rfl]
      by_cases hba : b ≤ a
      · rw [if_pos hba]
        simp [List.insertionSort, List.orderedInsert, descBy, hba]
      · rw [if_neg hba]
        simp [List.insertionSort, List.orderedInsert, descBy, hba]
    rw [hkept]
    by_cases hba : b ≤ a
    · rw [if_pos hba, show decide (b ≤ a) = true from decide_eq_true hba,
        show decide (a < b) = false from decide_eq_false (by omega)]
      rfl
    · rw [if_neg hba, show decide (b ≤ a) = false from decide_eq_false hba,
        show decide (a < b) = true from decide_eq_true (by omega)]
      rfl

/-- Witness for `keep_tie_stability`: the stability component at `4`-free tied
rolls `[5, 5]` with `KeepHighest(2)`, and the `2d20kh1` component at entropy
`[4, 4]` (both dice roll 5; the earlier one is kept). -/
theorem keep_tie_stability_witness :
    ((0 : Nat) < 1 ∧ 1 < ([5, 5] : List Nat).length ∧
      ([5, 5] : List Nat).getD 0 0 = ([5, 5] : List Nat).getD 1 0 ∧
      1 ∈ keptIndices ⟨2, 20, 0, some KeepMode.highest, some 2, none, none⟩ [5, 5] ∧
      0 ∈ keptIndices ⟨2, 20, 0, some KeepMode.highest, some 2, none, none⟩ [5, 5]) ∧
    (rollDice 2 20 [4, 4] = some ([5, 5], []) ∧
      roll ⟨2, 20, 0, some KeepMode.highest, some 1, none, none⟩ [4, 4] =
        some ⟨⟨2, 20, 0, some KeepMode.highest, some 1, none, none⟩,
          [⟨5, true⟩, ⟨5, false⟩], 5, 0, 5⟩ ∧
      ([⟨5, true⟩, ⟨5, false⟩] : List DieResult) =
        [⟨5, decide ((5 : Nat) ≤ 5)⟩, ⟨5, decide ((5 : Nat) < 5)⟩]) :=
  ⟨⟨by decide, by decide, by decide, by decide,
    keep_tie_stability.1 KeepMode.highest 2 20 0 2 [5, 5] 0 1 (by decide) (by decide)
      (by decide) (by decide)⟩,
   ⟨by decide, by decide,
    keep_tie_stability.2 5 5 [4, 4] []
      ⟨⟨2, 20, 0, some KeepMode.highest, some 1, none, none⟩, [⟨5, true⟩, ⟨5, false⟩], 5, 0, 5⟩
      (by decide) (by decide)⟩⟩

/-- On tie-free inputs the descending stable sort is exactly the reverse of
the ascending stable sort. -/
theorem insertionSort_desc_eq_reverse_asc {l : List (Nat × Nat)}
    (hdist : l.Pairwise (fun p q => p.1 ≠ q.1)) :
    List.insertionSort descBy l = (List.insertionSort ascBy l).reverse := by
  have hdistD : (List.insertionSort descBy l).Pairwise (fun p q => p.1 ≠ q.1) :=
    ((List.perm_insertionSort descBy l).pairwise_iff (fun h => Ne.symm h)).mpr hdist
  have hdistA : (List.insertionSort ascBy l).Pairwise (fun p q => p.1 ≠ q.1) :=
    ((List.perm_insertionSort ascBy l).pairwise_iff (fun h => Ne.symm h)).mpr hdist
  have hsD : (List.insertionSort descBy l).Pairwise sdescBy := by
    have h1 : (List.insertionSort descBy l).Pairwise descBy :=
      List.sorted_insertionSort descBy l
    exact (h1.and hdistD).imp fun h => lt_of_le_of_ne h.1 (Ne.symm h.2)
  have hsA : ((List.insertionSort ascBy l).reverse).Pairwise sdescBy := by
    rw [List.pairwise_reverse]
    have h1 : (List.insertionSort ascBy l).Pairwise ascBy :=
      List.sorted_insertionSort ascBy l
    exact (h1.and hdistA).imp fun h => lt_of_le_of_ne h.1 h.2
  have hperm : (List.insertionSort descBy l).Perm ((List.insertionSort ascBy l).reverse) :=
    (List.perm_insertionSort descBy l).trans
      ((List.perm_insertionSort ascBy l).symm.trans (List.reverse_perm _).symm)
  exact List.eq_of_perm_of_sorted hperm hsD hsA

/-- **C2, counterexample**: the claimed duality pairs KeepHighest with
DropHighest (and KeepLowest with DropLowest).  On the raw rolls `[1, 2]` with
`count = 2`, `n = 1` (so `count - n = 1`): KeepHighest(1) keeps index 1 (the
2) while DropHighest(1) drops it and keeps index 0, and KeepLowest(1) keeps
index 0 while DropLowest(1) keeps index 1.  Both pairings differ. -/
theorem keep_drop_duality_counterexample :
    ¬ ((keptIndices ⟨2, 20, 0, some KeepMode.highest, some 1, none, none⟩ [1, 2]).toFinset =
        (keptIndices ⟨2, 20, 0, none, none, some DropMode.highest, some 1⟩ [1, 2]).toFinset) ∧
    ¬ ((keptIndices ⟨2, 20, 0, some KeepMode.lowest, some 1, none, none⟩ [1, 2]).toFinset =
        (keptIndices ⟨2, 20, 0, none, none, some DropMode.lowest, some 1⟩ [1, 2]).toFinset) := by
  decide

/-- **C2, amended**: the duality that actually holds in the code pairs
KeepHighest with Drop*Lowest* and KeepLowest with Drop*Highest*, and — because
the stable sorts break ties in opposite directions — it holds whenever the raw
values are pairwise distinct: for every count, every `1 ≤ n ≤ count`, and
every tie-free raw roll sequence of length `count`, KeepHighest(n) keeps
exactly the same set of indices as DropLowest(count-n), and KeepLowest(n) the
same as DropHighest(count-n).  (On ties the kept value multisets still agree,
but the index sets can differ, as `[3, 3]` with KeepHighest(1) versus
DropLowest(1) shows.) -/
theorem keep_drop_duality_amended (c s : Nat) (mo : Int) (n : Nat) (raws : List Nat)
    (hlen : raws.length = c) (hn1 : 1 ≤ n) (hnc : n ≤ c)
    (hdist : raws.Pairwise (fun a b => a ≠ b)) :
    ((keptIndices ⟨c, s, mo, some KeepMode.highest, some n, none, none⟩ raws).toFinset =
      (keptIndices ⟨c, s, mo, none, none, some DropMode.lowest, some (c - n)⟩ raws).toFinset) ∧
    ((keptIndices ⟨c, s, mo, some KeepMode.lowest, some n, none, none⟩ raws).toFinset =
      (keptIndices ⟨c, s, mo, none, none, some DropMode.highest, some (c - n)⟩ raws).toFinset) := by
  have hdistP : (indexedBy raws).Pairwise (fun p q => p.1 ≠ q.1) := by
    unfold indexedBy
    rw [List.pairwise_map]
    rw [List.pairwise_iff_getElem] at hdist ⊢
    intro i j hi hj hij
    simp only [List.getElem_enum]
    exact hdist i j (by simpa using hi) (by simpa using hj) hij
  have hkey := insertionSort_desc_eq_reverse_asc hdistP
  have hkey2 : List.insertionSort ascBy (indexedBy raws)
      = (List.insertionSort descBy (indexedBy raws)).reverse := by
    rw [hkey, List.reverse_reverse]
  have hlenA : (List.insertionSort ascBy (indexedBy raws)).length = c := by
    rw [List.length_insertionSort, indexedBy_length, hlen]
  have hlenD : (List.insertionSort descBy (indexedBy raws)).length = c := by
    rw [List.length_insertionSort, indexedBy_length, hlen]
  constructor
  · show (((List.insertionSort descBy (indexedBy raws)).take n).map Prod.snd).toFinset =
      (((List.insertionSort ascBy (indexedBy raws)).drop (c - n)).map Prod.snd).toFinset
    rw [hkey, List.take_reverse, hlenA, List.map_reverse, List.toFinset_reverse]
  · show (((List.insertionSort ascBy (indexedBy raws)).take n).map Prod.snd).toFinset =
      (((List.insertionSort descBy (indexedBy raws)).drop (c - n)).map Prod.snd).toFinset
    rw [hkey2, List.take_reverse, hlenD, List.map_reverse, List.toFinset_reverse]

/-- Witness for `keep_drop_duality_amended` at `count = 2`, `n = 1`, distinct
raw rolls `[1, 2]`. -/
theorem keep_drop_duality_amended_witness :
    (([1, 2] : List Nat).length = 2 ∧ 1 ≤ 1 ∧ 1 ≤ 2 ∧
      ([1, 2] : List Nat).Pairwise (fun a b => a ≠ b)) ∧
    ((keptIndices ⟨2, 20, 0, some KeepMode.highest, some 1, none, none⟩ [1, 2]).toFinset =
      (keptIndices ⟨2, 20, 0, none, none, some DropMode.lowest, some (2 - 1)⟩ [1, 2]).toFinset) ∧
    ((keptIndices ⟨2, 20, 0, some KeepMode.lowest, some 1, none, none⟩ [1, 2]).toFinset =
      (keptIndices ⟨2, 20, 0, none, none, some DropMode.highest, some (2 - 1)⟩ [1, 2]).toFinset) :=
  ⟨⟨by decide, by decide, by decide, by decide⟩,
   keep_drop_duality_amended 2 20 0 1 [1, 2] (by decide) (by decide) (by decide) (by decide)⟩

end Duragon
